import Mathlib

/-!
Shallow embedding of the sysmon-cli terminal system monitor (src/src/main.rs)
and proofs about the display transforms and the event loop.

Modelling conventions:
* Rust `f32`/`f64` values are embedded as exact rationals; a possibly-NaN
  float (process CPU usage, which `partial_cmp` may fail to order) is
  `Option ℚ` with `none` standing for NaN.  Infinities do not arise in the
  quantities modelled here and are not represented.
* Rust `u64` quantities (byte counts) are `ℕ`; an unchecked `u64`/`usize`
  subtraction is embedded as a partial operation (`Option ℕ`) that is
  defined exactly when no underflow occurs.
* The `as usize` cast of a rounded `f32` is the saturating float-to-int
  cast: negative values clamp to 0, values above `usize::MAX` clamp to
  `2^64 - 1`.
* `Vec::sort_by` is a stable sort driven by a comparator; it is embedded as
  a stable insertion sort (`sort_by` below), which agrees with every stable
  sort whenever the comparator is a total preorder on the list's elements.
* The event loop's interaction with the OS (sampled metrics, polled input
  events, terminal mode switches) is driven by explicit oracle inputs and
  recorded as an action trace; terminal/draw I/O is assumed to succeed.
-/

namespace Sysmon

/-- Colors used by the dashboard (subset of the rendering library's palette
that `main.rs` selects from). -/
inductive Color where
  | red
  | green
  | blue
  | yellow
  | magenta
  | cyan
  | white
  | gray
  deriving DecidableEq, Repr

/-! ## Floats: `f32` with NaN (`none`) -/

/-- An `f32` value as used here: `none` is NaN, `some q` a finite value. -/
abbrev F32 := Option ℚ

/-- Total order comparison of two rationals as an `Ordering`. -/
def qcmp (x y : ℚ) : Ordering :=
  if x < y then Ordering.lt else if y < x then Ordering.gt else Ordering.eq

/-- `f32::partial_cmp`: `None` when either operand is NaN. -/
def float_cmp (a b : F32) : Option Ordering :=
  match a, b with
  | some x, some y => some (qcmp x y)
  | _, _ => none

/-- `f32::min`: if one argument is NaN, the other is returned. -/
def float_min (a b : F32) : F32 :=
  match a, b with
  | some x, some y => some (min x y)
  | some x, none => some x
  | none, some y => some y
  | none, none => none

/-! ## Memory widget (main.rs lines 121–132) -/

/-- `total_memory as f64 / 1024.0 / 1024.0 / 1024.0` — bytes to GiB. -/
def to_gib (bytes : ℕ) : ℚ :=
  (bytes : ℚ) / 1024 / 1024 / 1024

/-- `let memory_usage_percent = (used_memory / total_memory) * 100.0;`
computed from the GiB-converted values, as in the source. -/
def memory_usage_percent (total used : ℕ) : ℚ :=
  (to_gib used / to_gib total) * 100

/-- The memory severity color:
`if memory_usage_percent < 50.0 { Green } else if memory_usage_percent < 80.0
{ Yellow } else { Red }`. -/
def memory_color (total used : ℕ) : Color :=
  if memory_usage_percent total used < 50 then Color.green
  else if memory_usage_percent total used < 80 then Color.yellow
  else Color.red

/-! ## Disk widget (main.rs lines 178–195) -/

/-- A disk as reported by the OS metrics collaborator: name, total bytes,
available bytes. -/
structure Disk where
  name : String
  total_space : ℕ
  available_space : ℕ
  deriving DecidableEq, Repr

/-- `let used_space = total_space - available_space;` — an unchecked `u64`
subtraction, defined only when it does not underflow. -/
def used_space (d : Disk) : Option ℕ :=
  if d.available_space ≤ d.total_space then
    some (d.total_space - d.available_space)
  else
    none

/-- `let usage_percent = if total_space > 0 { (used_space as f64 /
total_space as f64) * 100.0 } else { 0.0 };` -/
def disk_usage_percent (d : Disk) : Option ℚ :=
  (used_space d).map fun u =>
    if 0 < d.total_space then ((u : ℚ) / (d.total_space : ℚ)) * 100 else 0

/-- The disk severity color: `if usage_percent > 90.0 { Red } else if
usage_percent > 75.0 { Yellow } else { Green }`. -/
def disk_usage_color (usage_percent : ℚ) : Color :=
  if 90 < usage_percent then Color.red
  else if 75 < usage_percent then Color.yellow
  else Color.green

/-! ## CPU bars (main.rs lines 261–275) -/

/-- Rust `f32::round`: round half away from zero. -/
def rust_round (q : ℚ) : ℤ :=
  if 0 ≤ q then ⌊q + 1 / 2⌋ else ⌈q - 1 / 2⌉

/-- Rust `as usize` on a rounded float: saturating cast, clamping negatives
to 0 and values above `usize::MAX` to `2^64 - 1`. -/
def as_usize (z : ℤ) : ℕ :=
  min z.toNat (2 ^ 64 - 1)

/-- `let bar_width = 10;` -/
def bar_width : ℕ := 10

/-- `let filled_bar_count = (usage / 100.0 * bar_width as f32).round() as
usize;` -/
def filled_bar_count (usage : ℚ) : ℕ :=
  as_usize (rust_round (usage / 100 * (bar_width : ℚ)))

/-- `let empty_bar_count = bar_width - filled_bar_count;` — an unchecked
`usize` subtraction, defined only when it does not underflow. -/
def empty_bar_count (usage : ℚ) : Option ℕ :=
  if filled_bar_count usage ≤ bar_width then
    some (bar_width - filled_bar_count usage)
  else
    none

/-- `let bar = "█".repeat(filled_bar_count) + &" ".repeat(empty_bar_count);` -/
def cpu_bar (usage : ℚ) : Option String :=
  (empty_bar_count usage).map fun e =>
    String.mk (List.replicate (filled_bar_count usage) '█' ++
      List.replicate e ' ')

/-- The per-core severity color: `if usage < 30.0 { Green } else if usage <
70.0 { Yellow } else { Red }`. -/
def cpu_bar_color (usage : ℚ) : Color :=
  if usage < 30 then Color.green
  else if usage < 70 then Color.yellow
  else Color.red

/-! ## Process table (main.rs lines 294–318) -/

/-- A process as reported by the OS metrics collaborator. -/
structure Proc where
  pid : ℕ
  name : String
  cpu_usage : F32
  memory : ℕ
  deriving DecidableEq, Repr

/-- The sort comparator of the process table:
`b.1.cpu_usage().partial_cmp(&a.1.cpu_usage()).unwrap_or(Ordering::Equal)`
— descending by raw CPU usage, incomparable pairs reported equal. -/
def process_cmp (a b : Proc) : Ordering :=
  (float_cmp b.cpu_usage a.cpu_usage).getD Ordering.eq

/-- Stable insertion of `a` into `l` under comparator `c`: `a` is placed
before the first element it does not compare greater than. -/
def insert_cmp {α : Type} (c : α → α → Ordering) (a : α) :
    List α → List α
  | [] => [a]
  | b :: l =>
    if c a b = Ordering.gt then b :: insert_cmp c a l else a :: b :: l

/-- Stable sort under comparator `c` (embedding of `Vec::sort_by`). -/
def sort_by {α : Type} (c : α → α → Ordering) : List α → List α
  | [] => []
  | a :: l => insert_cmp c a (sort_by c l)

/-- `process_list.sort_by(...)` on the collaborator-provided process list. -/
def sorted_processes (l : List Proc) : List Proc :=
  sort_by process_cmp l

/-- `.take(20)` — the displayed rows of the process table, in order. -/
def displayed_processes (l : List Proc) : List Proc :=
  (sorted_processes l).take 20

/-- `let cpu_usage_display = cpu_usage_raw.min(100.0);` -/
def displayed_cpu (p : Proc) : F32 :=
  float_min p.cpu_usage (some 100)

/-- The raw CPU key of a process under a no-NaN hypothesis. -/
def cpu_key (p : Proc) : ℚ :=
  p.cpu_usage.getD 0

/-- Comparator induced by a rational key, descending (greater key first). -/
def key_cmp {α : Type} (key : α → ℚ) (a b : α) : Ordering :=
  qcmp (key b) (key a)

/-- Modelled from the spec for the C2 comparison only: the hypothetical
comparator that sorts by the *capped* CPU values
(`min(raw, 100)`), which the spec asserts yields the same order as the
actual raw-value comparator. -/
def process_cmp_capped (a b : Proc) : Ordering :=
  (float_cmp (float_min b.cpu_usage (some 100))
    (float_min a.cpu_usage (some 100))).getD Ordering.eq

/-- Modelled from the spec for the C2 comparison only: the process table
rows as they would be if the sort used the capped values. -/
def capped_sorted_processes (l : List Proc) : List Proc :=
  (sort_by process_cmp_capped l).take 20

/-- The example process list of the spec: CPU usages `[5.0, 99.9, 50.0,
0.1]`. -/
def example_processes : List Proc :=
  [⟨1, "a", some 5, 0⟩, ⟨2, "b", some (999 / 10), 0⟩,
    ⟨3, "c", some 50, 0⟩, ⟨4, "d", some (1 / 10), 0⟩]

/-- Two processes whose raw CPU usages both exceed 100%: raw values 120 and
150, listed lower-first. -/
def over_100_processes : List Proc :=
  [⟨1, "p0", some 120, 0⟩, ⟨2, "p1", some 150, 0⟩]

/-! ## Event loop and application state (main.rs lines 19–47, 62–76,
388–412) -/

/-- Key codes: the source only distinguishes `Char('q')`, `Char('Q')`,
`Esc` and "anything else"; other named codes are collapsed into
representative constructors. -/
inductive KeyCode where
  | char (c : Char)
  | esc
  | enter
  | otherCode
  deriving DecidableEq, Repr

/-- Key event kinds (crossterm); the source never inspects the kind. -/
inductive KeyKind where
  | press
  | release
  | repeated
  deriving DecidableEq, Repr

/-- A key event: code plus kind. -/
structure KeyEvent where
  code : KeyCode
  kind : KeyKind
  deriving DecidableEq, Repr

/-- Input events: the source only distinguishes `Event::Key` from
"anything else" (mouse, resize, …). -/
inductive Event where
  | key (k : KeyEvent)
  | mouse
  | resize (w h : ℕ)
  | focusGained
  | focusLost
  deriving DecidableEq, Repr

/-- The outcome of one poll step of the loop:
`event::poll(16ms)` returned `Err` or `Ok(false)`, or it returned
`Ok(true)` and `event::read()` returned `Err` or `Ok(e)`. -/
inductive TickInput where
  | pollError
  | pollTimeout
  | readError
  | readEvent (e : Event)
  deriving DecidableEq, Repr

/-- The quit-key pattern `KeyCode::Char('q') | KeyCode::Char('Q') |
KeyCode::Esc` of the source's match. -/
def is_quit_key (code : KeyCode) : Bool :=
  match code with
  | KeyCode.char c => c == 'q' || c == 'Q'
  | KeyCode.esc => true
  | _ => false

/-- The input-handling block of the loop body (main.rs lines 388–403):
returns `true` exactly when the loop `break`s, i.e. when a successfully
read event is a key event whose code is `q`, `Q` or `Esc`. -/
def quit_requested : TickInput → Bool
  | TickInput.readEvent (Event.key k) => is_quit_key k.code
  | _ => false

/-- The metrics sampled from the OS on one refresh. -/
structure SysSample where
  cpus : List ℚ
  total_memory : ℕ
  used_memory : ℕ
  available_memory : ℕ
  processes : List Proc
  deriving DecidableEq, Repr

/-- The `App` struct: system snapshot, process-table selection state,
tick counter, and the disk list captured at startup. -/
structure App where
  system : SysSample
  processes_state_selected : Option ℕ
  tick_count : ℕ
  disks : List Disk
  deriving DecidableEq, Repr

/-- `App::new()`: the initial OS samples are oracle inputs; the table state
is default (no selection) and the tick counter 0. -/
def App.new (init_system : SysSample) (init_disks : List Disk) : App :=
  { system := init_system
    processes_state_selected := none
    tick_count := 0
    disks := init_disks }

/-- The refresh calls a tick issues against the OS metrics collaborator. -/
inductive RefreshCall where
  | cpu_all
  | memory
  | processes
  | disks_refresh
  deriving DecidableEq, Repr

/-- `App::on_tick` issues exactly these refresh calls (main.rs lines
38–44): CPU, memory, processes — no disk refresh. -/
def on_tick_refresh_calls : List RefreshCall :=
  [RefreshCall.cpu_all, RefreshCall.memory, RefreshCall.processes]

/-- `App::on_tick`: increment the tick counter and replace the system
metrics with the freshly sampled ones (an oracle input); `disks` and the
table state are untouched. -/
def App.on_tick (a : App) (fresh : SysSample) : App :=
  { a with tick_count := a.tick_count + 1, system := fresh }

/-- The loop's two states as described by the spec. -/
inductive Mode where
  | running
  | terminating
  deriving DecidableEq, Repr

/-- One loop iteration's effect on the application state and the loop
state: the tick refresh always happens; the mode becomes `terminating`
exactly when the input handler requests quit. -/
def iteration_step (a : App) (fresh : SysSample) (i : TickInput) :
    App × Mode :=
  (a.on_tick fresh,
    if quit_requested i then Mode.terminating else Mode.running)

/-- Observable actions of `main`, in program order. -/
inductive Action where
  | enter_alt_screen
  | enable_raw_mode
  | tick
  | draw
  | sleep_ms (n : ℕ)
  | leave_alt_screen
  | disable_raw_mode
  deriving DecidableEq, Repr

/-- The three warm-up iterations (main.rs lines 69–72): tick then 500ms
sleep, three times. -/
def warmup_trace : List Action :=
  [Action.tick, Action.sleep_ms 500, Action.tick, Action.sleep_ms 500,
    Action.tick, Action.sleep_ms 500]

/-- The main loop, driven by one `TickInput` oracle value per iteration:
each iteration ticks, draws, handles input; on quit it `break`s before the
200ms sleep. Returns the action trace and whether the loop exited within
the supplied inputs. -/
def loop_trace : List TickInput → List Action × Bool
  | [] => ([], false)
  | i :: is =>
    if quit_requested i then ([Action.tick, Action.draw], true)
    else
      let r := loop_trace is
      (Action.tick :: Action.draw :: Action.sleep_ms 200 :: r.1, r.2)

/-- The whole of `main` on the quit-capable path (terminal/draw I/O assumed
to succeed): terminal setup, warm-up, the loop, and — only after the loop
`break`s — terminal restoration. The boolean records a clean exit
(`Ok(())`, success status). -/
def main_run (inputs : List TickInput) : List Action × Bool :=
  let r := loop_trace inputs
  (Action.enter_alt_screen :: Action.enable_raw_mode :: warmup_trace ++
      r.1 ++
      (if r.2 then [Action.leave_alt_screen, Action.disable_raw_mode]
        else []),
    r.2)

/-! ## Claims C3, C4, C9 -/

/-- C3: for every memory snapshot with `total > 0`, the displayed memory
percentage equals `used/total*100` (even though the code computes it from the
GiB-converted values), and the severity color is green iff the percentage is
below 50, yellow iff it is in `[50, 80)`, and red iff it is at least 80. -/
theorem c3_memory_percent_and_color (total used : ℕ) (htot : 0 < total) :
    memory_usage_percent total used = (used : ℚ) / (total : ℚ) * 100
    ∧ (memory_color total used = Color.green ↔
        memory_usage_percent total used < 50)
    ∧ (memory_color total used = Color.yellow ↔
        50 ≤ memory_usage_percent total used ∧
          memory_usage_percent total used < 80)
    ∧ (memory_color total used = Color.red ↔
        80 ≤ memory_usage_percent total used) := by
  have htQ : (total : ℚ) ≠ 0 := by
    exact_mod_cast Nat.pos_iff_ne_zero.mp htot
  refine ⟨?_, ?_, ?_, ?_⟩
  · unfold memory_usage_percent to_gib
    field_simp
  · unfold memory_color
    split_ifs with h1 h2 <;> simp_all
  · unfold memory_color
    split_ifs with h1 h2 <;> simp_all <;> linarith
  · unfold memory_color
    split_ifs with h1 h2 <;> simp_all <;> linarith

/-- Witness for C3 at a concrete snapshot: 3 GiB used of 4 GiB total is 75%,
colored yellow. -/
theorem c3_memory_percent_and_color_witness :
    memory_usage_percent 4294967296 3221225472 = 75
    ∧ memory_color 4294967296 3221225472 = Color.yellow := by
  have h := c3_memory_percent_and_color 4294967296 3221225472 (by norm_num)
  have hp : memory_usage_percent 4294967296 3221225472 = 75 := by
    rw [h.1]; norm_num
  exact ⟨hp, h.2.2.1.mpr (by rw [hp]; norm_num)⟩

/-- C9 (implicit): the per-disk `used = total - available` is an unchecked
`u64` subtraction, well defined exactly under the precondition
`available ≤ total`, which the spec never states. -/
theorem c9_used_space_underflow_precondition (d : Disk) :
    (used_space d).isSome ↔ d.available_space ≤ d.total_space := by
  unfold used_space
  split_ifs with h <;> simp [h]

/-- C4: for each of the first 3 disks, `usage_percent` equals
`(total - available)/total*100` when `total > 0` and equals 0 when
`total = 0` (the division is guarded), and the severity color is red iff
the percentage exceeds 90, yellow iff it is in `(75, 90]`, green otherwise.
Stated under the underflow precondition `available ≤ total` (see C9). -/
theorem c4_disk_percent_and_color (disks : List Disk) (d : Disk)
    (hd : d ∈ disks.take 3) (hle : d.available_space ≤ d.total_space) :
    (d.total_space = 0 → disk_usage_percent d = some 0)
    ∧ (0 < d.total_space →
        disk_usage_percent d =
          some (((d.total_space - d.available_space : ℕ) : ℚ) /
            (d.total_space : ℚ) * 100))
    ∧ ∀ q : ℚ, disk_usage_percent d = some q →
        (disk_usage_color q = Color.red ↔ 90 < q)
        ∧ (disk_usage_color q = Color.yellow ↔ 75 < q ∧ q ≤ 90)
        ∧ (disk_usage_color q = Color.green ↔ q ≤ 75) := by
  refine ⟨?_, ?_, ?_⟩
  · intro h0
    unfold disk_usage_percent used_space
    rw [if_pos hle]
    simp [h0]
  · intro hpos
    unfold disk_usage_percent used_space
    rw [if_pos hle]
    simp [hpos]
  · intro q _
    unfold disk_usage_color
    refine ⟨?_, ?_, ?_⟩
    · split_ifs with h1 h2 <;> simp_all
    · split_ifs with h1 h2 <;> simp_all <;> linarith
    · split_ifs with h1 h2 <;> simp_all <;> linarith

/-- Witness for C4: a 100-byte disk with 5 bytes available is 95% used and
red, and a zero-capacity disk reports 0% without faulting. -/
theorem c4_disk_percent_and_color_witness :
    disk_usage_percent ⟨"sda", 100, 5⟩ = some 95
    ∧ disk_usage_color 95 = Color.red
    ∧ disk_usage_percent ⟨"null", 0, 0⟩ = some 0 := by
  have h1 := c4_disk_percent_and_color [⟨"sda", 100, 5⟩] ⟨"sda", 100, 5⟩
    (by simp) (by norm_num)
  have h2 := c4_disk_percent_and_color [⟨"null", 0, 0⟩] ⟨"null", 0, 0⟩
    (by simp) (by norm_num)
  have hp : disk_usage_percent ⟨"sda", 100, 5⟩ = some 95 := by
    rw [h1.2.1 (by norm_num)]; norm_num
  exact ⟨hp, ((h1.2.2 95 hp).1).mpr (by norm_num), h2.1 rfl⟩

/-! ## Claims C5, C10 -/

/-- For `0 ≤ usage < 105` the rounded fill count is at most the bar width. -/
theorem filled_bar_count_le (usage : ℚ) (h0 : 0 ≤ usage) (h1 : usage < 105) :
    filled_bar_count usage ≤ 10 := by
  unfold filled_bar_count as_usize rust_round bar_width
  rw [if_pos (by positivity)]
  refine le_trans (min_le_left _ _) ?_
  rw [Int.toNat_le]
  have hlt : ⌊usage / 100 * ((10 : ℕ) : ℚ) + 1 / 2⌋ < (11 : ℤ) :=
    Int.floor_lt.mpr (by push_cast; linarith)
  omega

/-- For `105 ≤ usage` the rounded fill count exceeds the bar width. -/
theorem filled_bar_count_gt (usage : ℚ) (h0 : 0 ≤ usage)
    (h1 : 105 ≤ usage) : 10 < filled_bar_count usage := by
  unfold filled_bar_count as_usize rust_round bar_width
  rw [if_pos (by positivity)]
  have hfl : (11 : ℤ) ≤ ⌊usage / 100 * ((10 : ℕ) : ℚ) + 1 / 2⌋ := by
    rw [Int.le_floor]
    push_cast
    linarith
  have h11 : 11 ≤ (⌊usage / 100 * ((10 : ℕ) : ℚ) + 1 / 2⌋).toNat := by
    omega
  have hmin : (11 : ℕ) ≤
      min (⌊usage / 100 * ((10 : ℕ) : ℚ) + 1 / 2⌋).toNat (2 ^ 64 - 1) :=
    le_min h11 (by norm_num)
  omega

/-- Concrete evaluation: at 45% usage the fill count is `round(4.5) = 5`. -/
theorem filled_bar_count_45 : filled_bar_count 45 = 5 := by
  unfold filled_bar_count as_usize rust_round bar_width
  rw [if_pos (by norm_num)]
  have h : ⌊(45 : ℚ) / 100 * ((10 : ℕ) : ℚ) + 1 / 2⌋ = 5 := by norm_num
  rw [h]
  rfl

/-- Concrete evaluation: at 45% usage there are 5 empty cells. -/
theorem empty_bar_count_45 : empty_bar_count 45 = some 5 := by
  unfold empty_bar_count bar_width
  rw [filled_bar_count_45]
  rfl

/-- C5: for every per-core usage in the well-defined range, the bar of fixed
width 10 has `filled = round(usage/100*10)` cells (Rust `f32::round`, half
away from zero, then a saturating `usize` cast) and `empty = 10 - filled`
cells, together filling the width-10 bar; in particular `usage = 45.0` gives
`filled = round(4.5) = 5` and `empty = 5`. -/
theorem c5_cpu_bar_geometry (usage : ℚ) (h0 : 0 ≤ usage)
    (h1 : usage < 105) :
    filled_bar_count usage = as_usize (rust_round (usage / 100 * 10))
    ∧ empty_bar_count usage = some (10 - filled_bar_count usage)
    ∧ filled_bar_count usage + (10 - filled_bar_count usage) = 10
    ∧ (cpu_bar usage).map String.length = some 10
    ∧ filled_bar_count 45 = 5
    ∧ empty_bar_count 45 = some 5 := by
  have hle := filled_bar_count_le usage h0 h1
  have hempty : empty_bar_count usage = some (10 - filled_bar_count usage) := by
    unfold empty_bar_count bar_width
    rw [if_pos hle]
  refine ⟨?_, hempty, by omega, ?_, filled_bar_count_45, empty_bar_count_45⟩
  · unfold filled_bar_count bar_width
    norm_num
  · unfold cpu_bar
    rw [hempty]
    simp only [Option.map_some']
    congr 1
    show (List.replicate (filled_bar_count usage) '█' ++
      List.replicate (10 - filled_bar_count usage) ' ').length = 10
    simp only [List.length_append, List.length_replicate]
    omega

/-- Witness for C5 at `usage = 45`: the bar is half filled. -/
theorem c5_cpu_bar_geometry_witness :
    filled_bar_count 45 = 5 ∧ empty_bar_count 45 = some 5
    ∧ (cpu_bar 45).map String.length = some 10 :=
  have h := c5_cpu_bar_geometry 45 (by norm_num) (by norm_num)
  ⟨h.2.2.2.2.1, h.2.2.2.2.2, h.2.2.2.1⟩

/-- C10 (implicit): `empty = 10 - filled` is an unchecked `usize`
subtraction, well defined exactly when `filled ≤ 10`; for nonnegative
per-core usage that is exactly the precondition `usage < 105`, which the
spec never states (raw usage is not capped before the bar is computed). -/
theorem c10_empty_bar_underflow_precondition (usage : ℚ) (h0 : 0 ≤ usage) :
    ((empty_bar_count usage).isSome ↔ filled_bar_count usage ≤ bar_width)
    ∧ ((empty_bar_count usage).isSome ↔ usage < 105) := by
  have hdef : (empty_bar_count usage).isSome ↔
      filled_bar_count usage ≤ bar_width := by
    unfold empty_bar_count
    split_ifs with h <;> simp [h]
  refine ⟨hdef, hdef.trans ?_⟩
  unfold bar_width
  constructor
  · intro hle
    by_contra hge
    exact absurd hle (by
      have := filled_bar_count_gt usage h0 (by linarith)
      omega)
  · intro hlt
    exact filled_bar_count_le usage h0 hlt

/-- Witness for C10: at `usage = 45` the bar is defined; at `usage = 105`
(an uncapped per-core reading) the subtraction underflows. -/
theorem c10_empty_bar_underflow_precondition_witness :
    (empty_bar_count 45).isSome ∧ ¬ (empty_bar_count 105).isSome :=
  ⟨((c10_empty_bar_underflow_precondition 45 (by norm_num)).2).mpr
      (by norm_num),
    fun hs => absurd
      (((c10_empty_bar_underflow_precondition 105 (by norm_num)).2).mp hs)
      (by norm_num)⟩

/-! ## Sorting lemmas -/

/-- `qcmp` reports `gt` exactly for a strictly greater left operand. -/
theorem qcmp_eq_gt {x y : ℚ} : qcmp x y = Ordering.gt ↔ y < x := by
  unfold qcmp
  split_ifs with h1 h2 <;> simp <;> linarith

/-- `qcmp` never reports `gt` exactly when the left operand is at most the
right. -/
theorem qcmp_ne_gt {x y : ℚ} : qcmp x y ≠ Ordering.gt ↔ x ≤ y := by
  rw [Ne, qcmp_eq_gt, not_lt]

/-- Stable insertion permutes. -/
theorem insert_cmp_perm {α : Type} (c : α → α → Ordering) (a : α)
    (l : List α) : (insert_cmp c a l).Perm (a :: l) := by
  induction l with
  | nil => exact List.Perm.refl _
  | cons b l ih =>
    unfold insert_cmp
    split_ifs with h
    · exact (ih.cons b).trans (List.Perm.swap a b l)
    · exact List.Perm.refl _

/-- The embedded stable sort permutes its input. -/
theorem sort_by_perm {α : Type} (c : α → α → Ordering) (l : List α) :
    (sort_by c l).Perm l := by
  induction l with
  | nil => exact List.Perm.refl _
  | cons a l ih =>
    exact (insert_cmp_perm c a (sort_by c l)).trans (ih.cons a)

/-- Insertion only consults the comparator on the inserted element against
list elements. -/
theorem insert_cmp_congr {α : Type} (c c' : α → α → Ordering) (a : α)
    (l : List α) (h : ∀ b ∈ l, c a b = c' a b) :
    insert_cmp c a l = insert_cmp c' a l := by
  induction l with
  | nil => rfl
  | cons b l ih =>
    unfold insert_cmp
    rw [h b (List.mem_cons_self b l)]
    split_ifs with hgt
    · rw [ih fun x hx => h x (List.mem_cons_of_mem b hx)]
    · rfl

/-- Two comparators that agree on all pairs of list elements sort the list
identically. -/
theorem sort_by_congr {α : Type} (c c' : α → α → Ordering) (l : List α)
    (h : ∀ a b, a ∈ l → b ∈ l → c a b = c' a b) :
    sort_by c l = sort_by c' l := by
  induction l with
  | nil => rfl
  | cons a l ih =>
    show insert_cmp c a (sort_by c l) = insert_cmp c' a (sort_by c' l)
    rw [ih fun x y hx hy =>
      h x y (List.mem_cons_of_mem a hx) (List.mem_cons_of_mem a hy)]
    refine insert_cmp_congr c c' a (sort_by c' l) fun b hb => ?_
    have hb' : b ∈ l := ((sort_by_perm c' l).mem_iff).mp hb
    exact h a b (List.mem_cons_self a l) (List.mem_cons_of_mem a hb')

/-- Inserting under a key-induced descending comparator preserves the
descending pairwise property. -/
theorem insert_cmp_key_pairwise {α : Type} (key : α → ℚ) (a : α)
    (l : List α) (hl : l.Pairwise fun x y => key y ≤ key x) :
    (insert_cmp (key_cmp key) a l).Pairwise fun x y => key y ≤ key x := by
  induction l with
  | nil => simp [insert_cmp]
  | cons b l ih =>
    rw [List.pairwise_cons] at hl
    obtain ⟨hb, hl'⟩ := hl
    unfold insert_cmp
    split_ifs with hgt
    · rw [List.pairwise_cons]
      refine ⟨fun x hx => ?_, ih hl'⟩
      have hx' : x ∈ a :: l := (insert_cmp_perm (key_cmp key) a l).subset hx
      rcases List.mem_cons.mp hx' with rfl | hx'
      · exact le_of_lt (qcmp_eq_gt.mp hgt)
      · exact hb x hx'
    · have hba : key b ≤ key a := qcmp_ne_gt.mp hgt
      rw [List.pairwise_cons]
      refine ⟨fun x hx => ?_, List.pairwise_cons.mpr ⟨hb, hl'⟩⟩
      rcases List.mem_cons.mp hx with rfl | hx'
      · exact hba
      · exact le_trans (hb x hx') hba

/-- The embedded stable sort under a key-induced descending comparator
produces a list that is pairwise descending in the key. -/
theorem sort_by_key_pairwise {α : Type} (key : α → ℚ) (l : List α) :
    (sort_by (key_cmp key) l).Pairwise fun x y => key y ≤ key x := by
  induction l with
  | nil => simp [sort_by]
  | cons a l ih => exact insert_cmp_key_pairwise key a (sort_by (key_cmp key) l) ih

/-- On processes whose CPU usage is not NaN, the table's comparator
coincides with the descending raw-CPU key comparator. -/
theorem process_cmp_eq_key (a b : Proc) (ha : a.cpu_usage.isSome)
    (hb : b.cpu_usage.isSome) : process_cmp a b = key_cmp cpu_key a b := by
  obtain ⟨qa, hqa⟩ := Option.isSome_iff_exists.mp ha
  obtain ⟨qb, hqb⟩ := Option.isSome_iff_exists.mp hb
  unfold process_cmp key_cmp float_cmp cpu_key
  rw [hqa, hqb]
  rfl

/-! ## Claims C1, C2 -/

/-- C1: for every process list whose CPU usages are all comparable (no
NaN), the sorted table is a permutation of the input ordered by raw CPU
usage descending, the displayed rows are its first 20 entries, and every
displayed row has CPU usage at least that of every undisplayed process;
in particular, for input CPU usages `[5.0, 99.9, 50.0, 0.1]` the displayed
order is `[99.9, 50.0, 5.0, 0.1]`. (Incomparable pairs are reported equal
by the comparator, as `unwrap_or(Equal)` does.) -/
theorem c1_process_table_top20 :
    (∀ l : List Proc, (∀ p ∈ l, p.cpu_usage.isSome) →
      (sorted_processes l).Perm l
      ∧ (sorted_processes l).Pairwise (fun x y => cpu_key y ≤ cpu_key x)
      ∧ displayed_processes l = (sorted_processes l).take 20
      ∧ ∀ p ∈ displayed_processes l, ∀ q ∈ (sorted_processes l).drop 20,
          cpu_key q ≤ cpu_key p)
    ∧ (displayed_processes example_processes).map Proc.cpu_usage =
        [some (999 / 10), some 50, some 5, some (1 / 10)] := by
  constructor
  · intro l h
    have hkey : sorted_processes l = sort_by (key_cmp cpu_key) l :=
      sort_by_congr process_cmp (key_cmp cpu_key) l
        fun a b ha hb => process_cmp_eq_key a b (h a ha) (h b hb)
    have hPW : (sorted_processes l).Pairwise
        fun x y => cpu_key y ≤ cpu_key x := by
      rw [hkey]
      exact sort_by_key_pairwise cpu_key l
    refine ⟨sort_by_perm process_cmp l, hPW, rfl, ?_⟩
    have hsplit : ((sorted_processes l).take 20 ++
        (sorted_processes l).drop 20).Pairwise
        fun x y => cpu_key y ≤ cpu_key x := by
      rw [List.take_append_drop]
      exact hPW
    rw [List.pairwise_append] at hsplit
    exact fun p hp q hq => hsplit.2.2 p hp q hq
  · norm_num [displayed_processes, sorted_processes, sort_by, insert_cmp,
      process_cmp, float_cmp, qcmp, example_processes]
    simp

/-- Witness for C1 at the spec's example list: the general theorem applies
(no CPU usage is NaN) and yields the descending order
`[99.9, 50.0, 5.0, 0.1]`. -/
theorem c1_process_table_top20_witness :
    (sorted_processes example_processes).Perm example_processes
    ∧ (displayed_processes example_processes).map Proc.cpu_usage =
        [some (999 / 10), some 50, some 5, some (1 / 10)] :=
  ⟨(c1_process_table_top20.1 example_processes
      (by intro p hp; fin_cases hp <;> rfl)).1,
    c1_process_table_top20.2⟩

/-- C2 counterexample: for raw CPU usages `[120, 150]` (both above the
display cap) the table's raw-value sort yields `[150, 120]`, but sorting
the same input by the capped values leaves the tied pair in input order
`[120, 150]` — the sort order is *not* identical whether or not the cap is
applied. -/
theorem c2_counterexample_cap_changes_order :
    capped_sorted_processes over_100_processes ≠
      displayed_processes over_100_processes := by
  norm_num [capped_sorted_processes, displayed_processes, sorted_processes,
    sort_by, insert_cmp, process_cmp, process_cmp_capped, float_cmp,
    float_min, qcmp, over_100_processes]
  simp

/-- C2 (amended): every displayed CPU value equals `min(raw, 100)` and so
never exceeds 100; the displayed row order comes from sorting the
*uncapped* raw values (the cap is applied per row after sorting); and
sorting by the capped values produces the identical order whenever every
raw usage is a non-NaN value at most 100 — but not in general (see the
counterexample with raws 120 and 150). -/
theorem c2_cap_display_only :
    (∀ p : Proc, ∃ q : ℚ, displayed_cpu p = some q ∧ q ≤ 100)
    ∧ (∀ l : List Proc,
        displayed_processes l = (sort_by process_cmp l).take 20)
    ∧ (∀ l : List Proc, (∀ p ∈ l, ∃ q : ℚ, p.cpu_usage = some q ∧ q ≤ 100) →
        sort_by process_cmp_capped l = sort_by process_cmp l) := by
  refine ⟨?_, fun l => rfl, ?_⟩
  · intro p
    cases hp : p.cpu_usage with
    | none => exact ⟨100, by simp [displayed_cpu, float_min, hp], le_refl 100⟩
    | some x =>
      exact ⟨min x 100, by simp [displayed_cpu, float_min, hp],
        min_le_right x 100⟩
  · intro l h
    refine sort_by_congr process_cmp_capped process_cmp l
      fun a b ha hb => ?_
    obtain ⟨qa, hqa, hqa100⟩ := h a ha
    obtain ⟨qb, hqb, hqb100⟩ := h b hb
    have ca : float_min a.cpu_usage (some 100) = some qa := by
      rw [hqa]
      simp [float_min, min_eq_left hqa100]
    have cb : float_min b.cpu_usage (some 100) = some qb := by
      rw [hqb]
      simp [float_min, min_eq_left hqb100]
    unfold process_cmp_capped process_cmp
    rw [ca, cb, hqa, hqb]

/-- Witness for C2 at the spec's example list, whose raw usages are all at
most 100: the capped sort coincides with the actual raw sort, and the
displayed CPU of a sample row is capped and at most 100. -/
theorem c2_cap_display_only_witness :
    sort_by process_cmp_capped example_processes =
      sort_by process_cmp example_processes
    ∧ ∃ q : ℚ, displayed_cpu ⟨1, "a", some 5, 0⟩ = some q ∧ q ≤ 100 := by
  refine ⟨c2_cap_display_only.2.2 example_processes ?_,
    c2_cap_display_only.1 _⟩
  intro p hp
  fin_cases hp
  · exact ⟨5, rfl, by norm_num⟩
  · exact ⟨999 / 10, rfl, by norm_num⟩
  · exact ⟨50, rfl, by norm_num⟩
  · exact ⟨1 / 10, rfl, by norm_num⟩

/-! ## Claims C6, C7, C8 -/

/-- A quit input makes the iteration `break` right after tick and draw. -/
theorem loop_trace_cons_quit (i : TickInput) (is : List TickInput)
    (hi : quit_requested i = true) :
    loop_trace (i :: is) = ([Action.tick, Action.draw], true) := by
  simp [loop_trace, hi]

/-- A non-quit input lets the iteration run to its 200ms sleep and
continue. -/
theorem loop_trace_cons_continue (i : TickInput) (is : List TickInput)
    (hi : quit_requested i = false) :
    loop_trace (i :: is) = (Action.tick :: Action.draw ::
      Action.sleep_ms 200 :: (loop_trace is).1, (loop_trace is).2) := by
  simp [loop_trace, hi]

/-- Loop-level facts on the quit path: the loop exits, later inputs are
never consumed, the loop emits no terminal-restoration actions itself, and
it sleeps 200ms exactly once per pre-quit iteration. -/
theorem loop_trace_quit_run (pre : List TickInput) (i : TickInput)
    (post : List TickInput)
    (hpre : ∀ j ∈ pre, quit_requested j = false)
    (hi : quit_requested i = true) :
    (loop_trace (pre ++ i :: post)).2 = true
    ∧ loop_trace (pre ++ i :: post) = loop_trace (pre ++ [i])
    ∧ (loop_trace (pre ++ i :: post)).1.count Action.leave_alt_screen = 0
    ∧ (loop_trace (pre ++ i :: post)).1.count Action.disable_raw_mode = 0
    ∧ (loop_trace (pre ++ i :: post)).1.count (Action.sleep_ms 200)
        = pre.length := by
  induction pre with
  | nil =>
    rw [List.nil_append, List.nil_append, loop_trace_cons_quit i post hi,
      loop_trace_cons_quit i [] hi]
    exact ⟨rfl, rfl, by decide, by decide, by decide⟩
  | cons j js ih =>
    have hj := hpre j (List.mem_cons_self j js)
    obtain ⟨h1, h2, h3, h4, h5⟩ :=
      ih fun x hx => hpre x (List.mem_cons_of_mem j hx)
    rw [List.cons_append, List.cons_append,
      loop_trace_cons_continue j _ hj, loop_trace_cons_continue j _ hj]
    refine ⟨h1, by rw [h2], ?_, ?_, ?_⟩
    · simp [List.count_cons, h3]
    · simp [List.count_cons, h4]
    · simp [List.count_cons, h5]

/-- C6: if the poll of some iteration yields a key event for `q`, `Q` or
`Escape` and no earlier iteration did, the loop transitions to Terminating
on that iteration — it exits before that iteration's 200ms sleep (one such
sleep per *earlier* iteration only) and consumes no later input — terminal
restoration (leave alternate screen, disable raw mode) happens exactly
once, and `main` returns success. -/
theorem c6_quit_transition (pre : List TickInput) (i : TickInput)
    (post : List TickInput)
    (hpre : ∀ j ∈ pre, quit_requested j = false)
    (hi : quit_requested i = true) :
    (main_run (pre ++ i :: post)).2 = true
    ∧ main_run (pre ++ i :: post) = main_run (pre ++ [i])
    ∧ (main_run (pre ++ i :: post)).1.count Action.leave_alt_screen = 1
    ∧ (main_run (pre ++ i :: post)).1.count Action.disable_raw_mode = 1
    ∧ (main_run (pre ++ i :: post)).1.count (Action.sleep_ms 200)
        = pre.length
    ∧ ∀ (a : App) (fresh : SysSample),
        (iteration_step a fresh i).2 = Mode.terminating := by
  obtain ⟨h1, h2, h3, h4, h5⟩ := loop_trace_quit_run pre i post hpre hi
  refine ⟨by simp [main_run, h1], by simp only [main_run]; rw [h2], ?_, ?_,
    ?_, fun a fresh => by simp [iteration_step, hi]⟩
  · simp [main_run, h1, warmup_trace, List.count_append, List.count_cons, h3]
  · simp [main_run, h1, warmup_trace, List.count_append, List.count_cons, h4]
  · simp [main_run, h1, warmup_trace, List.count_append, List.count_cons, h5]

/-- Witness for C6: a single iteration receiving a `q` key press exits
cleanly with exactly one terminal restoration and no 200ms sleep. -/
theorem c6_quit_transition_witness :
    (main_run [TickInput.readEvent (Event.key
        ⟨KeyCode.char 'q', KeyKind.press⟩)]).2 = true
    ∧ (main_run [TickInput.readEvent (Event.key
        ⟨KeyCode.char 'q', KeyKind.press⟩)]).1.count
          Action.leave_alt_screen = 1
    ∧ (main_run [TickInput.readEvent (Event.key
        ⟨KeyCode.char 'q', KeyKind.press⟩)]).1.count
          Action.disable_raw_mode = 1
    ∧ (main_run [TickInput.readEvent (Event.key
        ⟨KeyCode.char 'q', KeyKind.press⟩)]).1.count
          (Action.sleep_ms 200) = 0 := by
  have h := c6_quit_transition []
    (TickInput.readEvent (Event.key ⟨KeyCode.char 'q', KeyKind.press⟩)) []
    (by intro j hj; exact absurd hj (List.not_mem_nil j)) rfl
  exact ⟨h.1, h.2.2.1, h.2.2.2.1, by simpa using h.2.2.2.2.1⟩

/-- C7: any poll outcome other than a successfully read quit-key event —
a failed poll, a failed read, a key event for any other key, or any
non-key event — is treated as no event: the loop stays in Running,
proceeds through its 200ms sleep to the next iteration, and the iteration
changes no state besides the scheduled refresh. -/
theorem c7_nonquit_ignored (i : TickInput)
    (h : ∀ k : KeyEvent, i = TickInput.readEvent (Event.key k) →
        is_quit_key k.code = false) :
    quit_requested i = false
    ∧ (∀ is : List TickInput,
        loop_trace (i :: is) = (Action.tick :: Action.draw ::
          Action.sleep_ms 200 :: (loop_trace is).1, (loop_trace is).2))
    ∧ ∀ (a : App) (fresh : SysSample),
        iteration_step a fresh i = (a.on_tick fresh, Mode.running) := by
  have hq : quit_requested i = false := by
    cases i with
    | pollError => rfl
    | pollTimeout => rfl
    | readError => rfl
    | readEvent e =>
      cases e with
      | key k => exact h k rfl
      | mouse => rfl
      | resize w ht => rfl
      | focusGained => rfl
      | focusLost => rfl
  exact ⟨hq, fun is => loop_trace_cons_continue i is hq,
    fun a fresh => by simp [iteration_step, hq]⟩

/-- Witness for C7: a mouse event is discarded and the loop continues
through the 200ms sleep. -/
theorem c7_nonquit_ignored_witness :
    quit_requested (TickInput.readEvent Event.mouse) = false
    ∧ loop_trace [TickInput.readEvent Event.mouse] =
        ([Action.tick, Action.draw, Action.sleep_ms 200], false) := by
  have h := c7_nonquit_ignored (TickInput.readEvent Event.mouse)
    (by intro k hk; injection hk with hk'; exact absurd hk' (by simp))
  exact ⟨h.1, by rw [h.2.1 []]; rfl⟩

/-- Folding ticks over any sequence of fresh samples never touches the
disk list. -/
theorem foldl_on_tick_disks (a : App) (samples : List SysSample) :
    (samples.foldl App.on_tick a).disks = a.disks := by
  induction samples generalizing a with
  | nil => rfl
  | cons s ss ih => rw [List.foldl_cons, ih]; rfl

/-- C8: the disk list is captured once at startup and `on_tick` leaves it
unchanged — a tick increments `tick_count` by 1, replaces the system
metrics with the fresh samples, keeps the table state, and issues no disk
refresh call; consequently after any number of ticks the disks are still
the startup snapshot. -/
theorem c8_disks_captured_once :
    (∀ (a : App) (fresh : SysSample),
      (a.on_tick fresh).disks = a.disks
      ∧ (a.on_tick fresh).tick_count = a.tick_count + 1
      ∧ (a.on_tick fresh).system = fresh
      ∧ (a.on_tick fresh).processes_state_selected =
          a.processes_state_selected)
    ∧ RefreshCall.disks_refresh ∉ on_tick_refresh_calls
    ∧ ∀ (init_system : SysSample) (init_disks : List Disk)
        (samples : List SysSample),
        (samples.foldl App.on_tick (App.new init_system init_disks)).disks
          = init_disks := by
  refine ⟨fun a fresh => ⟨rfl, rfl, rfl, rfl⟩, by decide, ?_⟩
  intro init_system init_disks samples
  rw [foldl_on_tick_disks]
  rfl

end Sysmon
